import Mathlib

/-!
# Verification of the Terminus terminal session core (`terminus/terminal.py`)

This file gives a shallow embedding in Lean 4 of the pure computational core of
`src/terminus/terminal.py`: the geometry mapper (`view_size`), the image sizer
(`image_resize`, `get_image_size` together with the `imghdr` format dispatch and
the `base64`/`binascii` decoder used by `show_image`), the shared-buffer
producer/consumer handoff between the Reader and Renderer loops, the session
registry, and the `open`/`close`/`cleanup` lifecycle logic.

Conventions of the embedding:
* Python floats are modelled as exact rationals (`ℚ`); `int(x)` (truncation
  toward zero) is `pyInt`.
* Byte strings are `List ℕ` (each entry a byte value).
* Fallible Python code (code that can raise) is modelled with `Option`/`Except`:
  a `none`/`.error` result marks the input on which the Python original raises.
* Host-surface and process side effects are modelled as explicit action traces.
-/

set_option linter.unusedVariables false

namespace Terminus

/-- Python `int(x)` applied to a real-valued (float) expression: truncation
toward zero. For `x ≥ 0` this is `⌊x⌋`. -/
def pyInt (q : ℚ) : ℤ := if q < 0 then -⌊-q⌋ else ⌊q⌋

theorem pyInt_of_nonneg {q : ℚ} (h : 0 ≤ q) : pyInt q = ⌊q⌋ := by
  simp [pyInt, not_lt.mpr h]

theorem pyInt_nonpos_of_neg {q : ℚ} (h : q < 0) : pyInt q ≤ 0 := by
  have h1 : (0 : ℤ) ≤ ⌊-q⌋ := Int.floor_nonneg.mpr (by linarith)
  simp only [pyInt, if_pos h]
  omega

/-- Embedding of `view_size` (terminal.py lines 35–51): converts the viewport
pixel extent, line height and em width of the hosting view into a
`(rows, columns)` pair.  Mirrors the source: a zero line height or em width
yields the `(0, 0)` sentinel; otherwise `int` division with the `- 3` column
margin, each coordinate clamped below by `1`. -/
def view_size (pixel_width pixel_height pixel_per_line pixel_per_char : ℚ) : ℤ × ℤ :=
  if pixel_per_line = 0 ∨ pixel_per_char = 0 then (0, 0)
  else
    let nb_columns := pyInt (pixel_width / pixel_per_char) - 3
    let nb_columns := if nb_columns < 1 then 1 else nb_columns
    let nb_rows := pyInt (pixel_height / pixel_per_line)
    let nb_rows := if nb_rows < 1 then 1 else nb_rows
    (nb_rows, nb_columns)

/-- Embedding of the view-size handling in `Terminal.open` (lines 247–249):
a `(1, 1)` result of `view_size` is replaced by the default `(24, 80)`;
every other result is used as is. -/
def open_size (pixel_width pixel_height pixel_per_line pixel_per_char : ℚ) : ℤ × ℤ :=
  let size := view_size pixel_width pixel_height pixel_per_line pixel_per_char
  if size = (1, 1) then (24, 80) else size

/-- The spawn dimensions and screen geometry produced by `Terminal.open`
(lines 252–253): the process is spawned with `dimensions=size` and the screen
is constructed as `TerminalScreen(size[1], size[0], ...)`.
Modelled from the spec: the `TerminalScreen` constructor itself lives in the
absent `ptty` module; per the spec's interface it is `construct(columns, rows,
processHandle, scrollbackLines)`, so `size[1]` is the column count and
`size[0]` the row count. -/
structure OpenGeometry where
  spawn_dimensions : ℤ × ℤ
  screen_columns : ℤ
  screen_lines : ℤ
deriving DecidableEq, Repr

/-- The geometry part of `Terminal.open` (lines 247–253). -/
def open_setup (pixel_width pixel_height pixel_per_line pixel_per_char : ℚ) : OpenGeometry :=
  let size := open_size pixel_width pixel_height pixel_per_line pixel_per_char
  ⟨size, size.2, size.1⟩

/-! ## Image sizer: display sizing (`image_resize`, terminal.py lines 54–83) -/

/-- The Python value passed as `preserve_ratio`: the source compares it with
`== 1 or == "true"`, so it may be an integer or a string. -/
inductive PValue where
  | int (n : ℤ)
  | str (s : String)
deriving DecidableEq

/-- The check `preserve_ratio == 1 or preserve_ratio == "true"` (line 74). -/
def pvalue_truthy (p : PValue) : Bool :=
  match p with
  | .int n => n = 1
  | .str s => s = "true"

/-- Python `str.isdigit()` restricted to ASCII: nonempty and all digits. -/
def py_isdigit (s : String) : Bool := !s.data.isEmpty && s.data.all (fun c => c.isDigit)

/-- Python `int(s)` on a string of ASCII digits. -/
def digitsToNat (s : String) : ℕ := s.data.foldl (fun acc c => acc * 10 + (c.toNat - 48)) 0

/-- Resolution of one of the `width`/`height` arguments of `image_resize`
(lines 56–70).  A falsy argument (`None` or `""`) resolves to the natural
dimension; a digit string is a count of em widths; a string ending in `%` is a
percentage of the natural dimension.  `none` marks the arguments on which the
Python original raises (`int()` on a non-numeral, or arithmetic on a leftover
string). -/
def resolve_dim (spec : Option String) (natural : ℤ) (em_width : ℚ) : Option ℚ :=
  match spec with
  | none => some (natural : ℚ)
  | some s =>
    if s.data.isEmpty then some (natural : ℚ)
    else if py_isdigit s then some ((digitsToNat s : ℚ) * em_width)
    else if s.data.getLast? = some '%' then
      let p : String := ⟨s.data.dropLast⟩
      if py_isdigit p then some ((pyInt ((natural : ℚ) * (digitsToNat p : ℚ) / 100) : ℚ))
      else none
    else none

/-- `image_resize` up to (but excluding) the final max-width clamp
(lines 56–77): argument resolution, then — when `preserve_ratio` is `1` or
`"true"` — area-preserving renormalization onto the natural aspect ratio.
`int((area / ratio) ** 0.5)` for a nonnegative real argument is the integer
square root of `⌊area / ratio⌋`, embedded as `Nat.sqrt`.  `none` marks inputs
on which the Python original raises (`ZeroDivisionError` from `ratio`,
`area / ratio` or `area / height`, or `int()` of the complex result of a
negative base raised to `0.5`). -/
def image_resize_unclamped (img_size : ℤ × ℤ) (width height : Option String)
    (em_width : ℚ) (preserve_ratio : PValue) : Option (ℚ × ℚ) :=
  match resolve_dim width img_size.1 em_width, resolve_dim height img_size.2 em_width with
  | some w, some h =>
    if img_size.2 = 0 then none
    else
      let ratio : ℚ := (img_size.1 : ℚ) / (img_size.2 : ℚ)
      if pvalue_truthy preserve_ratio then
        let area := w * h
        if ratio = 0 then none
        else if area / ratio < 0 then none
        else
          let hgt : ℤ := (Nat.sqrt (pyInt (area / ratio)).toNat : ℤ)
          if hgt = 0 then none
          else some ((pyInt (area / (hgt : ℚ)) : ℚ), (hgt : ℚ))
      else some (w, h)
  | _, _ => none

/-- The final max-width clamp of `image_resize` (lines 79–81): a width above
`max_width` scales both dimensions by `max_width / width`.  The `w = 0` guard
mirrors the `ZeroDivisionError` the Python original would raise there (only
reachable when `max_width` is negative). -/
def clamp_width (w h max_width : ℚ) : Option (ℚ × ℚ) :=
  if w > max_width then
    if w = 0 then none
    else some (max_width, (pyInt (h * max_width / w) : ℚ))
  else some (w, h)

/-- Full `image_resize` (lines 54–83): the unclamped computation followed by
the max-width clamp. -/
def image_resize (img_size : ℤ × ℤ) (width height : Option String)
    (em_width max_width : ℚ) (preserve_ratio : PValue) : Option (ℚ × ℚ) :=
  match image_resize_unclamped img_size width height em_width preserve_ratio with
  | none => none
  | some wh => clamp_width wh.1 wh.2 max_width

/-! ## Image sizer: dimension sniffing (`get_image_size`, terminal.py lines 86–132)

The payload is a byte string, embedded as `List ℕ`.  `get_image_size` reads the
first 32 bytes, dispatches on `imghdr.what` (the standard-library format
detector, embedded below from CPython's `imghdr.py` test list), and decodes the
dimensions with `struct.unpack`. -/

/-- Byte at index `i`; within-bounds wherever used on the 32-byte head. -/
def byteAt (l : List ℕ) (i : ℕ) : ℕ := l.getD i 0

/-- `struct.unpack('>H', ...)`: big-endian unsigned 16-bit word at `i`. -/
def be16 (l : List ℕ) (i : ℕ) : ℕ := byteAt l i * 256 + byteAt l (i + 1)

/-- Big-endian unsigned 32-bit word at `i`. -/
def be32 (l : List ℕ) (i : ℕ) : ℕ :=
  ((byteAt l i * 256 + byteAt l (i + 1)) * 256 + byteAt l (i + 2)) * 256 + byteAt l (i + 3)

/-- `struct.unpack('>i', ...)`: big-endian signed 32-bit word at `i`
(two's complement). -/
def sbe32 (l : List ℕ) (i : ℕ) : ℤ :=
  if be32 l i < 2 ^ 31 then (be32 l i : ℤ) else (be32 l i : ℤ) - 2 ^ 32

/-- `struct.unpack('<H', ...)`: little-endian unsigned 16-bit word at `i`. -/
def le16 (l : List ℕ) (i : ℕ) : ℕ := byteAt l i + byteAt l (i + 1) * 256

/-- `struct.unpack('I', ...)` on the little-endian platforms the host editor
supports: little-endian unsigned 32-bit word at `i`. -/
def le32 (l : List ℕ) (i : ℕ) : ℕ :=
  byteAt l i + (byteAt l (i + 1) + (byteAt l (i + 2) + byteAt l (i + 3) * 256) * 256) * 256

/-- `_is_jpg` (lines 88–89): `h.startswith(b'\xff\xd8')`. -/
def is_jpg (h : List ℕ) : Bool := h.take 2 = [0xff, 0xd8]

/-- `imghdr.test_jpeg`: `h[6:10] in (b'JFIF', b'Exif')`. -/
def test_jpeg (h : List ℕ) : Bool :=
  (h.drop 6).take 4 = [0x4a, 0x46, 0x49, 0x46] ∨ (h.drop 6).take 4 = [0x45, 0x78, 0x69, 0x66]

/-- `imghdr.test_png`: the full 8-byte signature `\x89PNG\r\n\x1a\n`. -/
def test_png (h : List ℕ) : Bool :=
  h.take 8 = [0x89, 0x50, 0x4e, 0x47, 0x0d, 0x0a, 0x1a, 0x0a]

/-- `imghdr.test_gif`: `GIF87a` or `GIF89a`. -/
def test_gif (h : List ℕ) : Bool :=
  h.take 6 = [0x47, 0x49, 0x46, 0x38, 0x37, 0x61] ∨
    h.take 6 = [0x47, 0x49, 0x46, 0x38, 0x39, 0x61]

/-- `imghdr.test_tiff`: `MM` or `II`. -/
def test_tiff (h : List ℕ) : Bool :=
  h.take 2 = [0x4d, 0x4d] ∨ h.take 2 = [0x49, 0x49]

/-- `imghdr.test_rgb`: `\x01\xda`. -/
def test_rgb (h : List ℕ) : Bool := h.take 2 = [0x01, 0xda]

/-- `imghdr`'s shared portable-bitmap shape: `P`, a digit from `ds`, then
ASCII whitespace. -/
def test_pnm (h : List ℕ) (ds : List ℕ) : Bool :=
  3 ≤ h.length ∧ byteAt h 0 = 0x50 ∧ byteAt h 1 ∈ ds ∧
    (byteAt h 2 = 0x20 ∨ byteAt h 2 = 0x09 ∨ byteAt h 2 = 0x0a ∨ byteAt h 2 = 0x0d)

/-- `imghdr.test_rast`: Sun raster magic. -/
def test_rast (h : List ℕ) : Bool := h.take 4 = [0x59, 0xa6, 0x6a, 0x95]

/-- `imghdr.test_xbm`: ASCII `#define `. -/
def test_xbm (h : List ℕ) : Bool :=
  h.take 8 = [0x23, 0x64, 0x65, 0x66, 0x69, 0x6e, 0x65, 0x20]

/-- `imghdr.test_bmp`: ASCII `BM`. -/
def test_bmp (h : List ℕ) : Bool := h.take 2 = [0x42, 0x4d]

/-- `imghdr.test_webp`: `RIFF....WEBP`. -/
def test_webp (h : List ℕ) : Bool :=
  h.take 4 = [0x52, 0x49, 0x46, 0x46] ∧ (h.drop 8).take 4 = [0x57, 0x45, 0x42, 0x50]

/-- `imghdr.test_exr`: OpenEXR magic. -/
def test_exr (h : List ℕ) : Bool := h.take 4 = [0x76, 0x2f, 0x31, 0x01]

/-- CPython's `imghdr.tests` list, in registration order. -/
def imghdr_tests : List ((List ℕ → Bool) × String) :=
  [(test_jpeg, "jpeg"), (test_png, "png"), (test_gif, "gif"), (test_tiff, "tiff"),
   (test_rgb, "rgb"), (fun h => test_pnm h [0x31, 0x34], "pbm"),
   (fun h => test_pnm h [0x32, 0x35], "pgm"), (fun h => test_pnm h [0x33, 0x36], "ppm"),
   (test_rast, "rast"), (test_xbm, "xbm"), (test_bmp, "bmp"), (test_webp, "webp"),
   (test_exr, "exr")]

/-- CPython's `imghdr.what(file, h)` with the 32-byte head `h` supplied: the
first test in `imghdr.tests` that accepts `h` names the format. -/
def imghdr_what (h : List ℕ) : Option String :=
  (imghdr_tests.find? (fun t => t.1 h)).map (·.2)

/-- The inner `while ord(byte) == 0xff` read loop of the JPEG scan
(lines 117–119) starting from the remaining file contents: returns the first
byte that is not `0xff` together with the number of bytes consumed, or `none`
when the file is exhausted (Python: `ord(b'')` raises, caught by the handler). -/
def skipFF : List ℕ → Option (ℕ × ℕ)
  | [] => none
  | b :: rest =>
    if b = 0xff then (skipFF rest).map (fun p => (p.1, p.2 + 1)) else some (b, 1)

/-- `struct.unpack('>H', fhandle.read(2))` at file position `pos`: `none` when
fewer than two bytes remain (Python: `struct.error`, caught). -/
def read_be16_at (data : List ℕ) (pos : ℕ) : Option ℕ :=
  match (data.drop pos).take 2 with
  | [a, b] => some (a * 256 + b)
  | _ => none

/-- `struct.unpack('>HH', fhandle.read(4))` at file position `pos`. -/
def read_be16x2_at (data : List ℕ) (pos : ℕ) : Option (ℕ × ℕ) :=
  match (data.drop pos).take 4 with
  | [a, b, c, d] => some (a * 256 + b, c * 256 + d)
  | _ => none

/-- One unrolling of the JPEG segment-scan loop (lines 110–123).  The state is
the current file position `pos` (a natural number) and the pending relative
seek `size` (an integer: `unpack('>H', ...)[0] - 2` can be negative).  A
negative absolute seek target, an exhausted read, or exhausted fuel yield
`none` (the Python loop raises on the first two, caught by the handler; each
iteration advances the read position by at least one byte, so
`data.length + 2` units of fuel are enough for every input). -/
def jpeg_loop (data : List ℕ) : ℕ → ℕ → ℤ → Option (ℤ × ℤ)
  | 0, _, _ => none
  | fuel + 1, pos, size =>
    if (pos : ℤ) + size < 0 then none
    else
      let pos' := ((pos : ℤ) + size).toNat
      match skipFF (data.drop pos') with
      | none => none
      | some (ftype, k) =>
        match read_be16_at data (pos' + k) with
        | none => none
        | some v =>
          if 0xc0 ≤ ftype ∧ ftype ≤ 0xcf ∧ ¬(ftype = 0xc4 ∨ ftype = 0xc8 ∨ ftype = 0xcc) then
            -- Start-Of-Frame found: skip the precision byte, read height then
            -- width, return `(width, height)`.
            match read_be16x2_at data (pos' + k + 3) with
            | none => none
            | some (hgt, wid) => some ((wid : ℤ), (hgt : ℤ))
          else jpeg_loop data fuel (pos' + k + 2) ((v : ℤ) - 2)

/-- The JPEG branch of `get_image_size` (lines 109–125): scan from position 0
with an initial pending seek of 2 (past the `\xff\xd8` marker). -/
def jpeg_size (data : List ℕ) : Option (ℤ × ℤ) :=
  jpeg_loop data (data.length + 2) 0 2

/-- Embedding of `get_image_size` (lines 93–132) on the payload bytes.
`none` is Python's `return None` ("no size").  In the BMP branch the source
re-checks `head[0:2].decode() != "BM"`; on the reachable inputs (classified as
`bmp` by `imghdr`, hence starting with the bytes `BM`) the decode succeeds and
the check passes, which the guard below mirrors. -/
def get_image_size (data : List ℕ) : Option (ℤ × ℤ) :=
  let head := data.take 32
  if head.length ≠ 32 then none
  else
    let what := imghdr_what head
    if what = some "png" then
      if sbe32 head 4 ≠ 0x0d0a1a0a then none
      else some (sbe32 head 16, sbe32 head 20)
    else if what = some "gif" then
      some ((le16 head 6 : ℤ), (le16 head 8 : ℤ))
    else if what = some "jpeg" ∨ is_jpg head then
      jpeg_size data
    else if what = some "bmp" then
      if head.take 2 ≠ [0x42, 0x4d] then none
      else some ((le32 head 18 : ℤ), (le32 head 22 : ℤ))
    else none

/-! ## Image overlay handler (`Terminal.show_image`, terminal.py lines 327–365)

`show_image` decodes the base64 payload with `base64.decodebytes` — with **no**
exception handler around it — writes it to a temp file, sniffs the dimensions,
computes the display size and registers a phantom.  `base64.decodebytes` is
CPython's lenient `binascii.a2b_base64`, embedded below; `none` marks the
inputs on which it raises `binascii.Error` ("incorrect padding"). -/

/-- `binascii`'s base64 alphabet table: the 6-bit value of a character, or
`none` for characters outside the alphabet (which the lenient decoder skips). -/
def b64val (c : Char) : Option ℕ :=
  if 'A' ≤ c ∧ c ≤ 'Z' then some (c.toNat - 65)
  else if 'a' ≤ c ∧ c ≤ 'z' then some (c.toNat - 71)
  else if '0' ≤ c ∧ c ≤ '9' then some (c.toNat + 4)
  else if c = '+' then some 62
  else if c = '/' then some 63
  else none

/-- `binascii_find_valid(p, n, 1)` relative to the character after the current
one: the next character that is in the alphabet or is the pad `'='`. -/
def b64_next_valid (cs : List Char) : Option Char :=
  cs.find? (fun d => (b64val d).isSome || d = '=')

/-- CPython's lenient `binascii.a2b_base64` main loop.  State: `quad_pos`
(accepted characters mod 4), `leftchar`/`leftbits` (pending bit accumulator),
`acc` (output bytes, reversed).  A pad character terminates decoding when
`quad_pos = 3`, or when `quad_pos = 2` and the next valid character is another
pad; otherwise it is skipped.  Leftover bits at the end of input raise
`binascii.Error` (modelled as `none`). -/
def a2b_base64 : List Char → ℕ → ℕ → ℕ → List ℕ → Option (List ℕ)
  | [], _, _, leftbits, acc => if leftbits = 0 then some acc.reverse else none
  | c :: rest, quad_pos, leftchar, leftbits, acc =>
    if c = '=' then
      if quad_pos < 2 ∨ (quad_pos = 2 ∧ b64_next_valid rest ≠ some '=') then
        a2b_base64 rest quad_pos leftchar leftbits acc
      else some acc.reverse
    else
      match b64val c with
      | none => a2b_base64 rest quad_pos leftchar leftbits acc
      | some v =>
        let lc := leftchar * 64 + v
        let lb := leftbits + 6
        if 8 ≤ lb then
          a2b_base64 rest ((quad_pos + 1) % 4) (lc % 2 ^ (lb - 8)) (lb - 8)
            ((lc / 2 ^ (lb - 8)) % 256 :: acc)
        else a2b_base64 rest ((quad_pos + 1) % 4) lc lb acc

/-- `base64.decodebytes(data.encode())` for the directive payload string. -/
def decodebytes (data : String) : Option (List ℕ) :=
  a2b_base64 data.data 0 0 0 []

/-- The directive-argument mapping passed to `show_image`: `inline` records
that the key is present with a truthy value; the remaining keys are optional
(`args["width"] if "width" in args else None`, lines 347–351). -/
structure ImgArgs where
  inline : Bool
  width : Option String
  height : Option String
  preserveAspectRatio : Option PValue

/-- Exceptions that escape `show_image` (it has no handler of its own):
`binascii.Error` from `decodebytes`, or the errors `image_resize` can raise. -/
inductive PyError where
  | badBase64
  | badResize
deriving DecidableEq

/-- Observable outcome of one `show_image` call: `noop` (directive does not
request inline display), `logged_skip` (`logger.error("cannot get image size")`
and return, no phantom), or `shown` with the phantom's anchor
`(offset + cursor.y, cursor.x)`, display size and session-scoped counter. -/
inductive ShowImageOutcome where
  | noop
  | logged_skip
  | shown (row col : ℤ) (width height : ℚ) (phantom_id : ℕ)
deriving DecidableEq

/-- Embedding of `Terminal.show_image` (lines 327–365).  Inputs: the base64
payload `data`, the directive arguments, the screen cursor, the session's row
`offset`, the view's em width and viewport pixel width, and the session's
current `image_count`.  Returns the outcome together with the new
`image_count`, or the exception that escapes. -/
def show_image (data : String) (args : ImgArgs) (cursor_x cursor_y offset : ℤ)
    (em_width viewport_width : ℚ) (image_count : ℕ) :
    Except PyError (ShowImageOutcome × ℕ) :=
  if ¬ args.inline then .ok (.noop, image_count)
  else
    match decodebytes data with
    | none => .error .badBase64
    | some bytes =>
      match get_image_size bytes with
      | none => .ok (.logged_skip, image_count)
      | some img_size =>
        match image_resize img_size args.width args.height em_width
            (viewport_width - 3 * em_width) ((args.preserveAspectRatio).getD (PValue.int 1)) with
        | none => .error .badResize
        | some wh =>
          .ok (.shown (offset + cursor_y) cursor_x wh.1 wh.2 (image_count + 1), image_count + 1)

/-! ## Reader/Renderer shared buffer (`Terminal._start_rendering`, lines 174–238)

The Reader thread appends each successfully read chunk to `data[0]` under the
lock; the Renderer's `feed_data` (lines 194–199), under the same lock, feeds
the whole buffer into the state machine in one `stream.feed` call and clears
it.  Since every access is inside the one lock, an execution is an interleaving
of these atomic steps on the shared state. -/

/-- The lock-protected shared state: the accumulated buffer `data[0]` and the
history of arguments of the `stream.feed` calls issued so far. -/
structure RenderState where
  buffer : String
  feeds : List String
deriving DecidableEq

/-- Reader step (line 210–211): `data[0] += temp` under the lock. -/
def readerAppend (s : RenderState) (chunk : String) : RenderState :=
  { s with buffer := s.buffer ++ chunk }

/-- Renderer step `feed_data` (lines 194–199): under the lock, if the buffer is
nonempty, issue exactly one `stream.feed(data[0])` and clear the buffer. -/
def feed_data (s : RenderState) : RenderState :=
  if 0 < s.buffer.length then { buffer := "", feeds := s.feeds ++ [s.buffer] } else s

/-! ## Session registry and lifecycle (`Terminal`, lines 135–156, 240–289)

`Terminal._terminals` is a `dict` keyed by the view id; Python dicts preserve
insertion order, embedded as an association list.  Only the fields the
registry and cleanup logic read are modelled. -/

/-- The per-session data the registry and cleanup logic inspect. -/
structure Session where
  vid : ℕ
  tag : Option String
  panel_name : Option String
deriving DecidableEq

/-- Python `d[k] = v`: replace in place if the key is present, else append. -/
def dict_set : List (ℕ × Session) → ℕ → Session → List (ℕ × Session)
  | [], k, v => [(k, v)]
  | (k', v') :: rest, k, v =>
    if k' = k then (k, v) :: rest else (k', v') :: dict_set rest k v

/-- Python `if k in d: del d[k]` (lines 262–263): drop the entry, if any. -/
def dict_del : List (ℕ × Session) → ℕ → List (ℕ × Session)
  | [], _ => []
  | (k', v') :: rest, k => if k' = k then rest else (k', v') :: dict_del rest k

/-- `Terminal.__init__` (line 140): `self._terminals[view.id()] = self` —
the session is registered under its own view id as soon as it is created,
i.e. at the start of the open sequence. -/
def terminal_register (reg : List (ℕ × Session)) (t : Session) : List (ℕ × Session) :=
  dict_set reg t.vid t

/-- `Terminal.from_id` (lines 145–149). -/
def from_id : List (ℕ × Session) → ℕ → Option Session
  | [], _ => none
  | (k, v) :: rest, vid => if k = vid then some v else from_id rest vid

/-- `Terminal.from_tag` (lines 151–156): first session (in insertion order)
whose `tag` equals the argument. -/
def from_tag : List (ℕ × Session) → String → Option Session
  | [], _ => none
  | (_, v) :: rest, tag => if v.tag = some tag then some v else from_tag rest tag

/-- Host-surface and process effects issued by `close`/`cleanup`, in order. -/
inductive HostAction where
  | render
  | terminate
  | appendText (s : String)
  | setReadOnly
  | destroyPanel (name : String)
  | focusView
  | closeView
deriving DecidableEq

/-- `Terminal.close` (lines 260–264): remove the session from the registry and
terminate the process.  Modelled from the spec for the absent `ptty` module:
`process.terminate` is an opaque call on the process endpoint, recorded as the
`terminate` action. -/
def terminal_close (reg : List (ℕ × Session)) (vid : ℕ) :
    List (ℕ × Session) × List HostAction :=
  (dict_del reg vid, [.terminate])

/-- The exit-status message of line 275: Python `str.format` of
`process.exitstatus`, which is `None` while the process is alive. -/
def exitMsg (status : Option ℤ) : String :=
  "\nprocess is terminated with return code " ++
    (match status with
     | some n => toString n
     | none => "None") ++ "."

/-- Embedding of `Terminal.cleanup` (lines 266–289).  Inputs: the registry,
the session, the result of `self.view.window()` (`none` when the view is
detached) and `process.exitstatus`.  Output: the new registry and the ordered
trace of host/process actions: one final render, then `close()` (registry
removal + terminate), the exit-status append, the read-only toggle, and — only
when the exit status is 0 **and** the view still has a window — the destroy
(panel session) or focus+close (view session) of the hosting surface. -/
def terminal_cleanup (reg : List (ℕ × Session)) (t : Session) (window : Option ℕ)
    (exitstatus : Option ℤ) : List (ℕ × Session) × List HostAction :=
  let closed := terminal_close reg t.vid
  let acts := HostAction.render :: closed.2 ++
    [.appendText (exitMsg exitstatus), .setReadOnly]
  let tail_acts :=
    if exitstatus = some 0 then
      match t.panel_name, window with
      | some p, some _ => [HostAction.destroyPanel p]
      | some _, none => []
      | none, some _ => [HostAction.focusView, HostAction.closeView]
      | none, none => []
    else []
  (closed.1, acts ++ tail_acts)

/-! ## Helper lemmas -/

theorem clamp_one_pyInt (q : ℚ) : (if pyInt q < 1 then 1 else pyInt q) = max ⌊q⌋ 1 := by
  rcases lt_or_le q 0 with hq | hq
  · have h1 := pyInt_nonpos_of_neg hq
    have h2 : ⌊q⌋ ≤ 0 := Int.floor_nonpos hq.le
    rw [if_pos (by omega)]
    omega
  · rw [pyInt_of_nonneg hq]
    split <;> omega

theorem clamp_one_pyInt_sub3 (q : ℚ) :
    (if pyInt q - 3 < 1 then 1 else pyInt q - 3) = max (⌊q⌋ - 3) 1 := by
  rcases lt_or_le q 0 with hq | hq
  · have h1 := pyInt_nonpos_of_neg hq
    have h2 : ⌊q⌋ ≤ 0 := Int.floor_nonpos hq.le
    rw [if_pos (by omega)]
    omega
  · rw [pyInt_of_nonneg hq]
    split <;> omega

theorem sqrt_115200 : Nat.sqrt 115200 = 339 := by
  have h1 : 339 ≤ Nat.sqrt 115200 := Nat.le_sqrt.mpr (by norm_num)
  have h2 : Nat.sqrt 115200 < 340 := Nat.sqrt_lt.mpr (by norm_num)
  omega

theorem sqrt_230400 : Nat.sqrt 230400 = 480 := by
  have h1 : 480 ≤ Nat.sqrt 230400 := Nat.le_sqrt.mpr (by norm_num)
  have h2 : Nat.sqrt 230400 < 481 := Nat.sqrt_lt.mpr (by norm_num)
  omega

theorem resolve_dim_50pct (em : ℚ) : resolve_dim (some "50%") 640 em = some 320 := by
  have h4 : (⟨("50%" : String).data.dropLast⟩ : String) = "50" := by decide
  have h6 : digitsToNat "50" = 50 := by decide
  simp +decide only [resolve_dim, h4, h6, pyInt]
  norm_num

theorem resolve_dim_none (natural : ℤ) (em : ℚ) :
    resolve_dim none natural em = some (natural : ℚ) := rfl

theorem toNat_115200 : ((115200 : ℤ).toNat) = 115200 := rfl

theorem toNat_230400 : ((230400 : ℤ).toNat) = 230400 := rfl

/-- Concrete evaluation of the unclamped sizing pipeline on the spec's test
vector: `"50%"` of 640 gives width 320, height defaults to 480, the
area-preserving step yields `(453, 339)`. -/
theorem image_resize_unclamped_spec_vector (em : ℚ) :
    image_resize_unclamped (640, 480) (some "50%") none em (PValue.int 1) =
      some (453, 339) := by
  have hpy : pyInt ((320 : ℚ) * ((480 : ℤ) : ℚ) / (((640 : ℤ) : ℚ) / ((480 : ℤ) : ℚ)))
      = 115200 := by norm_num [pyInt]
  simp only [image_resize_unclamped]
  rw [resolve_dim_50pct]
  rw [show resolve_dim none ((640, 480) : ℤ × ℤ).2 em = some ((480 : ℤ) : ℚ) from rfl]
  simp only [hpy, toNat_115200, sqrt_115200]
  norm_num [pvalue_truthy, pyInt]

/-- Concrete evaluation with both arguments absent on a 640×480 image: the
pipeline reproduces the natural size. -/
theorem image_resize_unclamped_natural (em : ℚ) :
    image_resize_unclamped (640, 480) none none em (PValue.int 1) =
      some (640, 480) := by
  have hpy : pyInt (((640 : ℤ) : ℚ) * ((480 : ℤ) : ℚ) / (((640 : ℤ) : ℚ) / ((480 : ℤ) : ℚ)))
      = 230400 := by norm_num [pyInt]
  simp only [image_resize_unclamped]
  rw [show resolve_dim none ((640, 480) : ℤ × ℤ).1 em = some ((640 : ℤ) : ℚ) from rfl]
  rw [show resolve_dim none ((640, 480) : ℤ × ℤ).2 em = some ((480 : ℤ) : ℚ) from rfl]
  simp only [hpy, toNat_230400, sqrt_230400]
  norm_num [pvalue_truthy, pyInt]

/-! ## Claim C3 — geometry mapper -/

/-- Claim C3: `view_size` returns `(0, 0)` exactly when the pixel-per-line or
pixel-per-char metric is zero, and otherwise
`(max ⌊h/l⌋ 1, max (⌊w/c⌋ - 3) 1)`; in particular an 800×600 viewport with
line height 18 and char width 9 yields 33 rows and 85 columns. -/
theorem C3_view_size_contract :
    (∀ w h l c : ℚ, view_size w h l c =
      if l = 0 ∨ c = 0 then (0, 0) else (max ⌊h / l⌋ 1, max (⌊w / c⌋ - 3) 1)) ∧
    view_size 800 600 18 9 = (33, 85) := by
  have hgen : ∀ w h l c : ℚ, view_size w h l c =
      if l = 0 ∨ c = 0 then (0, 0) else (max ⌊h / l⌋ 1, max (⌊w / c⌋ - 3) 1) := by
    intro w h l c
    by_cases hc : l = 0 ∨ c = 0
    · simp [view_size, hc]
    · simp only [view_size, if_neg hc]
      rw [Prod.mk.injEq]
      exact ⟨clamp_one_pyInt _, clamp_one_pyInt_sub3 _⟩
  refine ⟨hgen, ?_⟩
  rw [hgen]
  norm_num

/-! ## Claim C10 — default size substitution in `open` -/

/-- Claim C10: in `Terminal.open`, the terminal size is replaced by the
default `(24, 80)` exactly when `view_size` returns `(1, 1)`; every other
result — including the `(0, 0)` sentinel, as the second conjunct shows on a
zero line height — is passed through unchanged as the spawn dimensions and
screen geometry. -/
theorem C10_open_default_size :
    (∀ w h l c : ℚ, open_setup w h l c =
      if view_size w h l c = (1, 1) then ⟨(24, 80), 80, 24⟩
      else ⟨view_size w h l c, (view_size w h l c).2, (view_size w h l c).1⟩) ∧
    open_setup 800 600 0 9 = ⟨(0, 0), 0, 0⟩ := by
  have hgen : ∀ w h l c : ℚ, open_setup w h l c =
      if view_size w h l c = (1, 1) then ⟨(24, 80), 80, 24⟩
      else ⟨view_size w h l c, (view_size w h l c).2, (view_size w h l c).1⟩ := by
    intro w h l c
    by_cases hv : view_size w h l c = (1, 1)
    · simp only [open_setup, open_size, if_pos hv]
    · simp only [open_setup, open_size, if_neg hv]
  refine ⟨hgen, ?_⟩
  rw [hgen]
  have h0 : view_size 800 600 0 9 = (0, 0) := by simp [view_size]
  rw [h0]
  norm_num

/-! ## Claim C1 — display-sizing test vector -/

/-- Claim C1 counterexample: on the spec's test vector the function returns
`(453, 339)`, not the claimed `(451, 340)` (shown here at em width 1; the
argument is unused on this input). -/
theorem C1_counterexample :
    image_resize (640, 480) (some "50%") none 1 10000 (PValue.int 1) = some (453, 339) ∧
    ¬ (((453 : ℚ), (339 : ℚ)) = ((451 : ℚ), (340 : ℚ))) := by
  constructor
  · rw [image_resize.eq_def, image_resize_unclamped_spec_vector]
    show clamp_width 453 339 10000 = some (453, 339)
    unfold clamp_width
    rw [if_neg (show ¬ (453 : ℚ) > 10000 from by norm_num)]
  · norm_num

/-- Claim C1 (amended): with naturalSize `(640, 480)`, widthSpec `"50%"`,
heightSpec absent, preserveRatio true and maxWidth 10000, the resolved width
before ratio normalization is 320 and the height defaults to 480 (area
153600), and the function returns exactly
`(⌊153600 / 339⌋, ⌊√(153600 / (640/480))⌋) = (453, 339)` — the values the
stated formula produces (`⌊√115200⌋ = 339`, not 340), for every em width. -/
theorem C1_display_sizing_amended : ∀ em : ℚ,
    resolve_dim (some "50%") 640 em = some 320 ∧
    resolve_dim none 480 em = some 480 ∧
    image_resize (640, 480) (some "50%") none em 10000 (PValue.int 1) =
      some (453, 339) := by
  intro em
  refine ⟨resolve_dim_50pct em, rfl, ?_⟩
  rw [image_resize.eq_def, image_resize_unclamped_spec_vector]
  show clamp_width 453 339 10000 = some (453, 339)
  unfold clamp_width
  rw [if_neg (show ¬ (453 : ℚ) > 10000 from by norm_num)]

/-! ## Claim C7 — max-width clamp -/

/-- Claim C7: whenever the width computed after spec resolution and ratio
normalization exceeds `max_width` (with a nonnegative `max_width` and computed
height), the returned pair is `(max_width, ⌊height * max_width / width⌋)` —
both dimensions scaled by the clamp ratio — and otherwise the pair is returned
unchanged. -/
theorem C7_max_width_clamp :
    ∀ (img_size : ℤ × ℤ) (width height : Option String) (em mw : ℚ) (pr : PValue) (w h : ℚ),
      image_resize_unclamped img_size width height em pr = some (w, h) →
      0 ≤ mw → 0 ≤ h →
      ((mw < w →
          image_resize img_size width height em mw pr = some (mw, (⌊h * mw / w⌋ : ℚ))) ∧
       (¬ mw < w →
          image_resize img_size width height em mw pr = some (w, h))) := by
  intro img_size width height em mw pr w h hunc hmw hh
  constructor
  · intro hlt
    have hw : 0 < w := lt_of_le_of_lt hmw hlt
    have hq : 0 ≤ h * mw / w := div_nonneg (mul_nonneg hh hmw) hw.le
    rw [image_resize.eq_def, hunc]
    show clamp_width w h mw = some (mw, (⌊h * mw / w⌋ : ℚ))
    unfold clamp_width
    rw [if_pos (show w > mw from hlt), if_neg hw.ne', pyInt_of_nonneg hq]
  · intro hnlt
    rw [image_resize.eq_def, hunc]
    show clamp_width w h mw = some (w, h)
    unfold clamp_width
    rw [if_neg (show ¬ w > mw from hnlt)]

/-- Witness for C7 at a concrete input exercising the clamp: the unclamped
result `(640, 480)` against max width 100 is scaled to `(100, ⌊75⌋)`. -/
theorem C7_max_width_clamp_witness :
    image_resize_unclamped (640, 480) none none 1 (PValue.int 1) = some (640, 480) ∧
    image_resize (640, 480) none none 1 100 (PValue.int 1) =
      some (100, (⌊(480 : ℚ) * 100 / 640⌋ : ℚ)) := by
  have h := image_resize_unclamped_natural 1
  exact ⟨h, (C7_max_width_clamp (640, 480) none none 1 100 (PValue.int 1) 640 480 h
    (by norm_num) (by norm_num)).1 (by norm_num)⟩

/-! ## Claim C2 — single contiguous feed per Renderer iteration -/

theorem foldl_readerAppend :
    ∀ (chunks : List String) (s : RenderState),
      chunks.foldl readerAppend s = ⟨chunks.foldl (· ++ ·) s.buffer, s.feeds⟩ := by
  intro chunks
  induction chunks with
  | nil => intro s; rfl
  | cons c cs ih => intro s; simp [List.foldl, readerAppend, ih]

theorem length_foldl_append :
    ∀ (chunks : List String) (init : String),
      (chunks.foldl (· ++ ·) init).length = init.length + (chunks.map String.length).sum := by
  intro chunks
  induction chunks with
  | nil => intro init; simp
  | cons c cs ih => intro init; simp [List.foldl, ih, String.length_append]; omega

theorem str_length_pos {c : String} (h : c ≠ "") : 0 < c.length := by
  cases c with
  | mk data =>
    cases data with
    | nil => exact absurd rfl h
    | cons a l => simp [String.length]

/-- Claim C2: if the Reader appends the chunks `s1, …, sN` (each the nonempty
result of a successful read) to an empty shared buffer before one Renderer
iteration runs, that iteration's `feed_data` issues exactly one feed whose
argument is the concatenation `s1 ‖ … ‖ sN` in arrival order, and clears the
buffer — so chunks from different Renderer iterations are never interleaved
inside a feed. -/
theorem C2_feed_concatenation :
    ∀ (s : RenderState) (chunks : List String),
      s.buffer = "" → chunks ≠ [] → (∀ c ∈ chunks, c ≠ "") →
      feed_data (chunks.foldl readerAppend s) = ⟨"", s.feeds ++ [String.join chunks]⟩ := by
  intro s chunks hbuf hne hcs
  rw [foldl_readerAppend, hbuf]
  have hjoin : chunks.foldl (· ++ ·) "" = String.join chunks := rfl
  have hlen : 0 < (String.join chunks).length := by
    rw [← hjoin, length_foldl_append]
    obtain ⟨c, hc⟩ := List.exists_mem_of_ne_nil chunks hne
    have h1 : 0 < c.length := str_length_pos (hcs c hc)
    have h2 : c.length ≤ (chunks.map String.length).sum :=
      List.single_le_sum (fun x _ => Nat.zero_le x) _ (List.mem_map_of_mem String.length hc)
    simp
    omega
  rw [hjoin]
  simp only [feed_data, if_pos hlen]

/-- Witness for C2 on the chunk sequence `["ab", "c"]`. -/
theorem C2_feed_concatenation_witness :
    feed_data (["ab", "c"].foldl readerAppend ⟨"", []⟩) = ⟨"", ["abc"]⟩ := by
  rw [C2_feed_concatenation ⟨"", []⟩ ["ab", "c"] rfl (by decide) (by decide)]
  decide

/-! ## Claims C4, C5, C6 — dimension sniffing and the image error path -/

theorem byteAt_take {l : List ℕ} {n i : ℕ} (hi : i < n) :
    byteAt (l.take n) i = byteAt l i := by
  simp [byteAt, List.getD_eq_getElem?_getD, List.getElem?_take_of_lt hi]

/-- A classification `imghdr_what h = some s` comes from a registered test
that accepts `h` and is named `s`. -/
theorem imghdr_feature {h : List ℕ} {s : String} (hw : imghdr_what h = some s) :
    ∃ p, p ∈ imghdr_tests ∧ p.1 h = true ∧ p.2 = s := by
  unfold imghdr_what at hw
  rcases ho : imghdr_tests.find? (fun t => t.1 h) with _ | p
  · rw [ho] at hw; cases hw
  · rw [ho] at hw
    simp only [Option.map_some', Option.some.injEq] at hw
    have hp := @List.find?_some _ (fun t => t.1 h) p imghdr_tests ho
    exact ⟨p, List.mem_of_find?_eq_some ho, hp, hw⟩

/-- A head classified `png` by `imghdr` starts with the full 8-byte PNG
signature (the test checks all 8 bytes, so the source's CRC-marker re-check is
always satisfied on classified payloads). -/
theorem imghdr_png_start {h : List ℕ} (hw : imghdr_what h = some "png") :
    h.take 8 = [0x89, 0x50, 0x4e, 0x47, 0x0d, 0x0a, 0x1a, 0x0a] := by
  obtain ⟨p, hmem, htest, hname⟩ := imghdr_feature hw
  simp only [imghdr_tests, List.mem_cons, List.not_mem_nil, or_false] at hmem
  rcases hmem with rfl | rfl | rfl | rfl | rfl | rfl | rfl | rfl | rfl | rfl | rfl | rfl | rfl <;>
    first
      | exact absurd hname (by decide)
      | simpa [test_png] using htest

/-- A head classified `bmp` by `imghdr` starts with the bytes `BM`. -/
theorem imghdr_bmp_start {h : List ℕ} (hw : imghdr_what h = some "bmp") :
    h.take 2 = [0x42, 0x4d] := by
  obtain ⟨p, hmem, htest, hname⟩ := imghdr_feature hw
  simp only [imghdr_tests, List.mem_cons, List.not_mem_nil, or_false] at hmem
  rcases hmem with rfl | rfl | rfl | rfl | rfl | rfl | rfl | rfl | rfl | rfl | rfl | rfl | rfl <;>
    first
      | exact absurd hname (by decide)
      | simpa [test_bmp] using htest

/-- On a png-classified head, the signed big-endian word at offset 4 is the
CRC-marker constant the source compares against. -/
theorem sbe32_of_png_start {h : List ℕ} (hw : imghdr_what h = some "png") :
    sbe32 h 4 = 0x0d0a1a0a := by
  have hs := imghdr_png_start hw
  have b4 : byteAt h 4 = 0x0d := by rw [← byteAt_take (show 4 < 8 by norm_num), hs]; rfl
  have b5 : byteAt h 5 = 0x0a := by rw [← byteAt_take (show 5 < 8 by norm_num), hs]; rfl
  have b6 : byteAt h 6 = 0x1a := by rw [← byteAt_take (show 6 < 8 by norm_num), hs]; rfl
  have b7 : byteAt h 7 = 0x0a := by rw [← byteAt_take (show 7 < 8 by norm_num), hs]; rfl
  simp only [sbe32, be32]
  rw [b4, b5, b6, b7]
  decide

/-- A well-formed 32-byte PNG head declaring 640×480 (signature, IHDR length,
`IHDR`, width, height, bit depth/colour type, padding). -/
def pngW : List ℕ :=
  [0x89, 0x50, 0x4e, 0x47, 0x0d, 0x0a, 0x1a, 0x0a,
   0x00, 0x00, 0x00, 0x0d, 0x49, 0x48, 0x44, 0x52,
   0x00, 0x00, 0x02, 0x80, 0x00, 0x00, 0x01, 0xe0,
   0x08, 0x06, 0x00, 0x00, 0x00, 0x00, 0x00, 0x00]

/-- `pngW` with the CRC-marker word corrupted (byte 4 zeroed): no `imghdr`
test matches it any more. -/
def pngCorrupt : List ℕ :=
  [0x89, 0x50, 0x4e, 0x47, 0x00, 0x0a, 0x1a, 0x0a,
   0x00, 0x00, 0x00, 0x0d, 0x49, 0x48, 0x44, 0x52,
   0x00, 0x00, 0x02, 0x80, 0x00, 0x00, 0x01, 0xe0,
   0x08, 0x06, 0x00, 0x00, 0x00, 0x00, 0x00, 0x00]

/-- A 32-byte BMP head: `BM`, zero header fields, width 100 and height 50 as
little-endian 32-bit words at offsets 18 and 22. -/
def bmpW : List ℕ :=
  [0x42, 0x4d, 0x00, 0x00, 0x00, 0x00, 0x00, 0x00,
   0x00, 0x00, 0x00, 0x00, 0x00, 0x00, 0x00, 0x00,
   0x00, 0x00, 0x64, 0x00, 0x00, 0x00, 0x32, 0x00,
   0x00, 0x00, 0x00, 0x00, 0x00, 0x00, 0x00, 0x00]

/-- A truncated JPEG: SOI marker, an APP0/JFIF segment header, then zeros; the
segment scan runs off the end of the payload. -/
def jpegTrunc : List ℕ :=
  [0xff, 0xd8, 0xff, 0xe0, 0x00, 0x10, 0x4a, 0x46, 0x49, 0x46] ++ List.replicate 22 0

/-- Claim C4: for every payload of at least 32 bytes that the format detector
classifies as PNG, if the big-endian word at offsets 4..8 is `0x0D0A1A0A` the
sniffer returns the big-endian 32-bit words at offsets 16..20 and 20..24 as
`(width, height)`, and if that word differs it returns no size; moreover a
synthetic PNG with a corrupted marker word yields no size. -/
theorem C4_png_sniffing :
    (∀ data : List ℕ, 32 ≤ data.length →
      imghdr_what (data.take 32) = some "png" →
      (sbe32 (data.take 32) 4 = 0x0d0a1a0a →
        get_image_size data = some (sbe32 (data.take 32) 16, sbe32 (data.take 32) 20)) ∧
      (sbe32 (data.take 32) 4 ≠ 0x0d0a1a0a → get_image_size data = none)) ∧
    get_image_size pngCorrupt = none := by
  constructor
  · intro data hlen hpng
    have hhead : ¬ ((data.take 32).length ≠ 32) := by rw [List.length_take]; omega
    constructor
    · intro hcheck
      simp only [get_image_size]
      rw [if_neg hhead, if_pos hpng, if_neg (not_not_intro hcheck)]
    · intro hcheck
      simp only [get_image_size]
      rw [if_neg hhead, if_pos hpng, if_pos hcheck]
  · decide

/-- Witness for C4 on the synthetic 640×480 PNG head. -/
theorem C4_png_sniffing_witness :
    32 ≤ pngW.length ∧ imghdr_what (pngW.take 32) = some "png" ∧
    sbe32 (pngW.take 32) 16 = 640 ∧ sbe32 (pngW.take 32) 20 = 480 ∧
    get_image_size pngW = some (sbe32 (pngW.take 32) 16, sbe32 (pngW.take 32) 20) :=
  ⟨by decide, by decide, by decide, by decide,
    (C4_png_sniffing.1 pngW (by decide) (by decide)).1 (by decide)⟩

/-- Claim C6: every payload of at least 32 bytes classified as BMP starts with
the ASCII bytes `B`, `M` (so the source's re-check passes), and the sniffer
returns the unsigned little-endian 32-bit words at offsets 18..22 and 22..26
as `(width, height)`. -/
theorem C6_bmp_sniffing :
    ∀ data : List ℕ, 32 ≤ data.length →
      imghdr_what (data.take 32) = some "bmp" →
      (data.take 32).take 2 = [0x42, 0x4d] ∧
      get_image_size data =
        some ((le32 (data.take 32) 18 : ℤ), (le32 (data.take 32) 22 : ℤ)) := by
  intro data hlen hbmp
  have hstart := imghdr_bmp_start hbmp
  have hhead : ¬ ((data.take 32).length ≠ 32) := by rw [List.length_take]; omega
  refine ⟨hstart, ?_⟩
  have hnpng : ¬ (imghdr_what (data.take 32) = some "png") := by rw [hbmp]; decide
  have hngif : ¬ (imghdr_what (data.take 32) = some "gif") := by rw [hbmp]; decide
  have hnjpeg : ¬ (imghdr_what (data.take 32) = some "jpeg" ∨
      is_jpg (data.take 32) = true) := by
    intro hc
    rcases hc with hc | hc
    · rw [hbmp] at hc; exact absurd hc (by decide)
    · have h2 : (data.take 32).take 2 = [0xff, 0xd8] := by simpa [is_jpg] using hc
      rw [hstart] at h2
      exact absurd h2 (by decide)
  simp only [get_image_size]
  rw [if_neg hhead, if_neg hnpng, if_neg hngif, if_neg hnjpeg, if_pos hbmp,
    if_neg (not_not_intro hstart)]

/-- Witness for C6 on the synthetic 100×50 BMP head. -/
theorem C6_bmp_sniffing_witness :
    32 ≤ bmpW.length ∧ imghdr_what (bmpW.take 32) = some "bmp" ∧
    le32 (bmpW.take 32) 18 = 100 ∧ le32 (bmpW.take 32) 22 = 50 ∧
    get_image_size bmpW = some ((le32 (bmpW.take 32) 18 : ℤ), (le32 (bmpW.take 32) 22 : ℤ)) :=
  ⟨by decide, by decide, by decide, by decide,
    (C6_bmp_sniffing bmpW (by decide) (by decide)).2⟩

/-- Claim C5 counterexample: the payload `"a"` is undecodable base64
(one data character cannot end a quad), and `show_image` — which has no
exception handler around `base64.decodebytes` — propagates the decoding
error instead of logging and skipping. -/
theorem C5_counterexample :
    show_image "a" ⟨true, none, none, none⟩ 0 0 0 1 100 0 =
      .error .badBase64 := rfl

/-- Claim C5 (amended): `get_image_size` never raises — a payload shorter than
32 bytes, an unrecognized format, or a malformed/truncated JPEG scan all yield
no size — and a directive whose header is unrecognized or truncated is logged
and skipped by `show_image` without raising; an *undecodable base64 payload*,
however, raises out of `show_image` (see the counterexample). -/
theorem C5_malformed_image_amended :
    (∀ data : List ℕ, data.length < 32 → get_image_size data = none) ∧
    (∀ data : List ℕ,
      imghdr_what (data.take 32) ≠ some "png" →
      imghdr_what (data.take 32) ≠ some "gif" →
      imghdr_what (data.take 32) ≠ some "jpeg" →
      imghdr_what (data.take 32) ≠ some "bmp" →
      is_jpg (data.take 32) ≠ true →
      get_image_size data = none) ∧
    get_image_size jpegTrunc = none ∧
    (∀ (data : String) (args : ImgArgs) (cx cy off : ℤ) (em vw : ℚ) (ic : ℕ) (bs : List ℕ),
      args.inline = true →
      decodebytes data = some bs →
      get_image_size bs = none →
      show_image data args cx cy off em vw ic = .ok (.logged_skip, ic)) := by
  refine ⟨?_, ?_, by decide, ?_⟩
  · intro data hlen
    simp only [get_image_size]
    rw [if_pos (show (data.take 32).length ≠ 32 by rw [List.length_take]; omega)]
  · intro data h1 h2 h3 h4 h5
    simp only [get_image_size]
    by_cases hl : (data.take 32).length ≠ 32
    · rw [if_pos hl]
    · rw [if_neg hl, if_neg h1, if_neg h2, if_neg (fun hc => hc.elim h3 h5), if_neg h4]
  · intro data args cx cy off em vw ic bs hinl hdec hsniff
    rw [show_image.eq_def, if_neg (not_not_intro hinl)]
    simp only [hdec, hsniff]

/-- Witness for C5 (amended) at a short payload and at an empty base64
directive (decodes to the empty byte string, whose sniffing fails). -/
theorem C5_malformed_image_amended_witness :
    get_image_size [0] = none ∧
    show_image "" ⟨true, none, none, none⟩ 0 0 0 1 100 0 =
      .ok (.logged_skip, 0) :=
  ⟨C5_malformed_image_amended.1 [0] (by decide),
   C5_malformed_image_amended.2.2.2 "" ⟨true, none, none, none⟩ 0 0 0 1 100 0 []
     rfl (by decide) (by decide)⟩

/-! ## Claims C8, C9 — registry invariants and session cleanup -/

/-- The registry keys (view ids) are pairwise distinct — automatic for a
Python `dict`, an invariant of the association-list embedding. -/
def KeysNodup (reg : List (ℕ × Session)) : Prop := (reg.map Prod.fst).Nodup

/-- Every registry entry is stored under its own session's view id — the
invariant established by `__init__`'s `self._terminals[view.id()] = self`. -/
def Coherent (reg : List (ℕ × Session)) : Prop := ∀ p ∈ reg, p.2.vid = p.1

theorem keys_dict_set_sub {reg : List (ℕ × Session)} {k x : ℕ} {v : Session}
    (hx : x ∈ (dict_set reg k v).map Prod.fst) : x ∈ reg.map Prod.fst ∨ x = k := by
  induction reg with
  | nil => simpa [dict_set] using hx
  | cons p rest ih =>
    obtain ⟨k1, v1⟩ := p
    simp only [dict_set] at hx
    by_cases h : k1 = k
    · rw [if_pos h] at hx
      simp only [List.map_cons, List.mem_cons] at hx ⊢
      tauto
    · rw [if_neg h] at hx
      simp only [List.map_cons, List.mem_cons] at hx ⊢
      rcases hx with hx | hx
      · tauto
      · rcases ih hx with h1 | h1 <;> tauto

theorem dict_set_nodup {reg : List (ℕ × Session)} {k : ℕ} {v : Session}
    (hnd : KeysNodup reg) : KeysNodup (dict_set reg k v) := by
  induction reg with
  | nil => simp [KeysNodup, dict_set]
  | cons p rest ih =>
    obtain ⟨k1, v1⟩ := p
    rw [KeysNodup, List.map_cons, List.nodup_cons] at hnd
    rw [KeysNodup]
    simp only [dict_set]
    by_cases h : k1 = k
    · rw [if_pos h, List.map_cons, List.nodup_cons]
      exact ⟨h ▸ hnd.1, hnd.2⟩
    · rw [if_neg h, List.map_cons, List.nodup_cons]
      refine ⟨fun hmem => ?_, ih hnd.2⟩
      rcases keys_dict_set_sub hmem with h1 | h1
      · exact hnd.1 h1
      · exact h h1

theorem mem_dict_set {reg : List (ℕ × Session)} {k : ℕ} {v : Session} {p : ℕ × Session}
    (hp : p ∈ dict_set reg k v) : p ∈ reg ∨ p = (k, v) := by
  induction reg with
  | nil => simpa [dict_set] using hp
  | cons q rest ih =>
    obtain ⟨k1, v1⟩ := q
    simp only [dict_set] at hp
    by_cases h : k1 = k
    · rw [if_pos h] at hp
      simp only [List.mem_cons] at hp ⊢
      tauto
    · rw [if_neg h] at hp
      simp only [List.mem_cons] at hp ⊢
      rcases hp with hp | hp
      · tauto
      · rcases ih hp with h1 | h1 <;> tauto

theorem dict_set_coherent {reg : List (ℕ × Session)} {v : Session}
    (hco : Coherent reg) : Coherent (dict_set reg v.vid v) := by
  intro p hp
  rcases mem_dict_set hp with h | h
  · exact hco p h
  · rw [h]

theorem from_id_dict_set (reg : List (ℕ × Session)) (k : ℕ) (v : Session) :
    from_id (dict_set reg k v) k = some v := by
  induction reg with
  | nil => simp [dict_set, from_id]
  | cons p rest ih =>
    obtain ⟨k1, v1⟩ := p
    simp only [dict_set]
    by_cases h : k1 = k
    · rw [if_pos h]
      simp [from_id]
    · rw [if_neg h]
      simp only [from_id, if_neg h]
      exact ih

theorem from_id_none_of_not_mem {reg : List (ℕ × Session)} {k : ℕ}
    (hk : k ∉ reg.map Prod.fst) : from_id reg k = none := by
  induction reg with
  | nil => rfl
  | cons p rest ih =>
    obtain ⟨k1, v1⟩ := p
    simp only [List.map_cons, List.mem_cons, not_or] at hk
    have hne : ¬ (k1 = k) := fun he => hk.1 he.symm
    simp only [from_id, if_neg hne]
    exact ih hk.2

theorem from_id_dict_del {reg : List (ℕ × Session)} {k : ℕ}
    (hnd : KeysNodup reg) : from_id (dict_del reg k) k = none := by
  induction reg with
  | nil => rfl
  | cons p rest ih =>
    obtain ⟨k1, v1⟩ := p
    rw [KeysNodup, List.map_cons, List.nodup_cons] at hnd
    simp only [dict_del]
    by_cases h : k1 = k
    · rw [if_pos h]
      exact from_id_none_of_not_mem (h ▸ hnd.1)
    · rw [if_neg h]
      simp only [from_id, if_neg h]
      exact ih hnd.2

theorem mem_dict_del {reg : List (ℕ × Session)} {k : ℕ} {p : ℕ × Session}
    (hp : p ∈ dict_del reg k) : p ∈ reg := by
  induction reg with
  | nil => simp [dict_del] at hp
  | cons q rest ih =>
    obtain ⟨k1, v1⟩ := q
    simp only [dict_del] at hp
    by_cases h : k1 = k
    · rw [if_pos h] at hp
      exact List.mem_cons_of_mem _ hp
    · rw [if_neg h] at hp
      rcases List.mem_cons.mp hp with hp | hp
      · exact hp ▸ List.mem_cons_self _ rest
      · exact List.mem_cons_of_mem _ (ih hp)

theorem mem_dict_del_key_ne {reg : List (ℕ × Session)} {k : ℕ} {p : ℕ × Session}
    (hnd : KeysNodup reg) (hp : p ∈ dict_del reg k) : p.1 ≠ k := by
  induction reg with
  | nil => simp [dict_del] at hp
  | cons q rest ih =>
    obtain ⟨k1, v1⟩ := q
    rw [KeysNodup, List.map_cons, List.nodup_cons] at hnd
    simp only [dict_del] at hp
    by_cases h : k1 = k
    · rw [if_pos h] at hp
      intro he
      have hm : p.1 ∈ rest.map Prod.fst := List.mem_map_of_mem Prod.fst hp
      rw [he, ← h] at hm
      exact hnd.1 hm
    · rw [if_neg h] at hp
      rcases List.mem_cons.mp hp with hp | hp
      · exact hp ▸ h
      · exact ih hnd.2 hp

theorem from_tag_mem {reg : List (ℕ × Session)} {tg : String} {t : Session}
    (hf : from_tag reg tg = some t) : ∃ k, (k, t) ∈ reg := by
  induction reg with
  | nil => cases hf
  | cons p rest ih =>
    obtain ⟨k1, v1⟩ := p
    simp only [from_tag] at hf
    by_cases h : v1.tag = some tg
    · rw [if_pos h] at hf
      exact ⟨k1, by rw [← Option.some_inj.mp hf]; exact List.mem_cons_self _ rest⟩
    · rw [if_neg h] at hf
      obtain ⟨k, hk⟩ := ih hf
      exact ⟨k, List.mem_cons_of_mem _ hk⟩

/-- Claim C9: the registry keeps at most one session per surface identifier
(distinct keys, every entry under its own view id), registration at session
creation makes the session retrievable by id, and after `close` the session's
id resolves to nothing and no tag lookup can return a session with that view
id — in particular not the closed session. -/
theorem C9_registry_lifecycle :
    ∀ (reg : List (ℕ × Session)) (t : Session), KeysNodup reg → Coherent reg →
      KeysNodup (terminal_register reg t) ∧
      Coherent (terminal_register reg t) ∧
      from_id (terminal_register reg t) t.vid = some t ∧
      from_id (terminal_close (terminal_register reg t) t.vid).1 t.vid = none ∧
      (∀ (tg : String) (t' : Session),
        from_tag (terminal_close (terminal_register reg t) t.vid).1 tg = some t' →
        t'.vid ≠ t.vid) := by
  intro reg t hnd hco
  have hnd1 : KeysNodup (terminal_register reg t) := dict_set_nodup hnd
  have hco1 : Coherent (terminal_register reg t) := dict_set_coherent hco
  refine ⟨hnd1, hco1, from_id_dict_set reg t.vid t, from_id_dict_del hnd1, ?_⟩
  intro tg t' hft
  obtain ⟨k, hk⟩ := from_tag_mem hft
  have h1 : (k, t') ∈ terminal_register reg t := mem_dict_del hk
  have h2 : k ≠ t.vid := mem_dict_del_key_ne hnd1 hk
  have h3 : t'.vid = k := hco1 (k, t') h1
  rw [h3]
  exact h2

/-- The session used in the registry and cleanup witnesses. -/
def sessionW : Session := ⟨1, some "build", none⟩

/-- Witness for C9 on a singleton registry. -/
theorem C9_registry_lifecycle_witness :
    from_id (terminal_register [] sessionW) 1 = some sessionW ∧
    from_id (terminal_close (terminal_register [] sessionW) 1).1 1 = none := by
  have h := C9_registry_lifecycle [] sessionW (by simp [KeysNodup]) (by simp [Coherent])
  exact ⟨h.2.2.1, h.2.2.2.1⟩

/-- Claim C8 counterexample: a non-panel session whose view is already
detached from its window (`view.window()` is `None`): the exit status is 0,
yet cleanup neither focuses nor closes the hosting view, refuting the
"exactly when the exit status is 0" biconditional. -/
theorem C8_counterexample :
    HostAction.closeView ∉ (terminal_cleanup [(1, ⟨1, none, none⟩)] ⟨1, none, none⟩
      none (some 0)).2 ∧
    HostAction.focusView ∉ (terminal_cleanup [(1, ⟨1, none, none⟩)] ⟨1, none, none⟩
      none (some 0)).2 := by decide

/-- Claim C8 (amended): every cleanup invocation triggers one final render
first, terminates the process, removes the session from the registry, appends
the exit-status message and marks the surface read-only; exactly when the exit
status is 0 **and the view is still attached to a window**, it destroys the
hosting output panel (panel session) or focuses and closes the hosting view
(otherwise); a non-zero exit status triggers none of these surface-closing
actions. -/
theorem C8_cleanup_amended :
    ∀ (reg : List (ℕ × Session)) (t : Session) (window : Option ℕ) (st : Option ℤ),
      KeysNodup reg →
      from_id (terminal_cleanup reg t window st).1 t.vid = none ∧
      (terminal_cleanup reg t window st).2.head? = some HostAction.render ∧
      HostAction.terminate ∈ (terminal_cleanup reg t window st).2 ∧
      HostAction.appendText (exitMsg st) ∈ (terminal_cleanup reg t window st).2 ∧
      HostAction.setReadOnly ∈ (terminal_cleanup reg t window st).2 ∧
      (∀ p : String, t.panel_name = some p →
        (HostAction.destroyPanel p ∈ (terminal_cleanup reg t window st).2 ↔
          (st = some 0 ∧ window.isSome = true)) ∧
        HostAction.closeView ∉ (terminal_cleanup reg t window st).2) ∧
      (t.panel_name = none →
        (HostAction.closeView ∈ (terminal_cleanup reg t window st).2 ↔
          (st = some 0 ∧ window.isSome = true)) ∧
        (HostAction.focusView ∈ (terminal_cleanup reg t window st).2 ↔
          (st = some 0 ∧ window.isSome = true))) := by
  intro reg t window st hnd
  refine ⟨from_id_dict_del hnd, rfl, ?_, ?_, ?_, ?_, ?_⟩
  · simp [terminal_cleanup, terminal_close]
  · simp [terminal_cleanup, terminal_close]
  · simp [terminal_cleanup, terminal_close]
  · intro p hp
    by_cases hst : st = some 0 <;> rcases window with _ | wv <;>
      simp [terminal_cleanup, terminal_close, hp, hst]
  · intro hp
    by_cases hst : st = some 0 <;> rcases window with _ | wv <;>
      simp [terminal_cleanup, terminal_close, hp, hst]

/-- Witness for C8 (amended): a panel session with an attached window and exit
status 0 has its panel destroyed and is gone from the registry. -/
theorem C8_cleanup_amended_witness :
    from_id (terminal_cleanup [(1, ⟨1, none, some "Terminus"⟩)] ⟨1, none, some "Terminus"⟩
      (some 7) (some 0)).1 1 = none ∧
    HostAction.destroyPanel "Terminus" ∈
      (terminal_cleanup [(1, ⟨1, none, some "Terminus"⟩)] ⟨1, none, some "Terminus"⟩
        (some 7) (some 0)).2 := by
  have h := C8_cleanup_amended [(1, ⟨1, none, some "Terminus"⟩)] ⟨1, none, some "Terminus"⟩
    (some 7) (some 0) (by simp [KeysNodup])
  exact ⟨h.1, ((h.2.2.2.2.2.1 "Terminus" rfl).1).mpr (by simp)⟩

end Terminus
